import Mathlib

/-!
Verification of the tioc dependency-injection library (src/index.ts).

The embedding models the exported `ServiceRegistry` / `ServiceProvider` pair.
JavaScript `Map` objects are modelled as association lists held in a heap
(`World.stores`) indexed by allocation number, so that the reference identity
of the `singletons` map of each registry instance and of the `scoped` map of
each provider is explicit.  Client factory callbacks are modelled as a small
effect language `FBody`: a factory may call sibling accessors, throw, and
finally return either a literal value, a freshly allocated object, or a
freshly allocated pending promise.  The `body` field is indexed by the number
of times the factory function has already been invoked, which models closure
state of the callback.  Every invocation of a factory is recorded in
`World.invLog` so that claims about how often factories run are statable.
-/

namespace Tioc

/-- Runtime values: the JavaScript primitives the claims mention, plus
object identities (`obj`) and pending promise identities (`pending`).
Reference equality of objects is equality of their allocation number. -/
inductive Value where
  | undef
  | null
  | bool (b : Bool)
  | num (n : Int)
  | str (s : String)
  | obj (id : Nat)
  | pending (id : Nat)
deriving DecidableEq, Repr

/-- Errors an accessor call can produce: calling a property that is not on
the provider object (a TypeError in JavaScript), an exception thrown by a
factory, or exhaustion of the evaluation fuel. -/
inductive Err where
  | keyNotFound (k : String)
  | thrown (msg : String)
  | outOfFuel
deriving DecidableEq, Repr

/-- Result description of a terminating factory body. -/
inductive RVal where
  | const (v : Value)
  | freshObj
  | freshPending
deriving DecidableEq, Repr

/-- Body of a factory callback: a sequence of accessor calls on the provider
argument, ending in a return or a throw. -/
inductive FBody where
  | ret (r : RVal)
  | throw (msg : String)
  | call (dep : String) (rest : FBody)
deriving DecidableEq, Repr

/-- Keys of the provider that a body calls. -/
def FBody.calls : FBody → List String
  | .ret _ => []
  | .throw _ => []
  | .call dep rest => dep :: rest.calls

/-- Model of a factory function value. `fid` is the identity of the
underlying function object, `deps` the set of provider keys its TypeScript
parameter type exposes, and `body n` its behaviour on its n-th invocation
(indexing by invocation count models mutable closure state). -/
structure Factory where
  fid : Nat
  deps : List String
  body : Nat → FBody

/-- Available dependency scopes (type DescriptorType, src/index.ts line 27). -/
inductive DescriptorType where
  | singleton
  | scoped
  | transient
deriving DecidableEq, Repr

/-- Descriptor (src/index.ts lines 29-32). -/
structure Descriptor where
  type : DescriptorType
  factory : Factory

/-! ### JavaScript Map operations on association lists -/

/-- Map.has. -/
def mapHas {α : Type} : List (String × α) → String → Bool
  | [], _ => false
  | e :: es, k => e.1 = k || mapHas es k

/-- Map.get, as an Option. -/
def mapGet? {α : Type} : List (String × α) → String → Option α
  | [], _ => none
  | e :: es, k => if e.1 = k then some e.2 else mapGet? es k

/-- Map.set: replaces the value in place if the key is present (JavaScript
preserves the original insertion position), otherwise appends. -/
def mapSet {α : Type} : List (String × α) → String → α → List (String × α)
  | [], k, v => [(k, v)]
  | e :: es, k, v => if e.1 = k then (k, v) :: es else e :: mapSet es k v

/-- Position of a key in iteration order; length of the list if absent. -/
def mapIdx {α : Type} : List (String × α) → String → Nat
  | [], _ => 0
  | e :: es, k => if e.1 = k then 0 else mapIdx es k + 1

/-- Storage map of resolved instances (the scoped and singleton Maps). -/
abbrev SMap := List (String × Value)

/-- Map.get on a storage map, returning undefined when absent, exactly as
JavaScript Map.get does. -/
def SMap.getJs (m : SMap) (k : String) : Value :=
  (mapGet? m k).getD Value.undef

/-- Descriptor map of a registry (the Map passed to the constructor). -/
abbrev DMap := List (String × Descriptor)

/-- Descriptor lookup. -/
def lookupD (ds : DMap) (k : String) : Option Descriptor :=
  mapGet? ds k

/-! ### The world: heap of Map objects, fresh counter, invocation log -/

/-- Global state: `stores` is the heap of Map objects (indexed by allocation
number), `nextStore` the next free heap slot, `fresh` the next fresh object
or promise identity, and `invLog` the list of factory invocations, each
recorded as (scoped-map id of the provider, key, factory id). -/
structure World where
  stores : Nat → SMap
  nextStore : Nat
  fresh : Nat
  invLog : List (Nat × String × Nat)

/-- Allocates a new empty Map on the heap. -/
def World.alloc (w : World) : Nat × World :=
  (w.nextStore,
   { w with
      stores := fun i => if i = w.nextStore then [] else w.stores i,
      nextStore := w.nextStore + 1 })

/-- Overwrites one Map on the heap. -/
def World.setStore (w : World) (i : Nat) (m : SMap) : World :=
  { w with stores := fun j => if j = i then m else w.stores j }

/-- Number of times the factory with identity `fid` appears in the log. -/
def invCount (log : List (Nat × String × Nat)) (fid : Nat) : Nat :=
  (log.filter (fun e => e.2.2 = fid)).length

/-- Key of a logged invocation event. -/
def evKey (e : Nat × String × Nat) : String := e.2.1

/-- Factory identity of a logged invocation event. -/
def evFid (e : Nat × String × Nat) : Nat := e.2.2

/-! ### ServiceRegistry and ServiceProvider -/

/-- ServiceRegistry (src/index.ts lines 41-137): the descriptor map together
with the heap reference of this instance's private `singletons` Map
(line 50). -/
structure ServiceRegistry where
  descriptors : DMap
  singletons : Nat

/-- ServiceRegistry.create (lines 46-48): `new ServiceRegistry(new Map())`,
whose field initializer allocates a fresh empty `singletons` Map. -/
def ServiceRegistry.create (w : World) : ServiceRegistry × World :=
  let a := w.alloc
  ({ descriptors := [], singletons := a.1 }, a.2)

/-- ServiceRegistry.add (lines 60-68): copies the descriptor Map, sets the
key, and returns `new ServiceRegistry(descriptors)` — a new instance whose
field initializer allocates a fresh empty `singletons` Map. -/
def ServiceRegistry.add (r : ServiceRegistry) (type : DescriptorType)
    (key : String) (factory : Factory) (w : World) : ServiceRegistry × World :=
  let a := w.alloc
  ({ descriptors := mapSet r.descriptors key { type := type, factory := factory },
     singletons := a.1 }, a.2)

/-- ServiceRegistry.addSingleton (lines 75-80). -/
def ServiceRegistry.addSingleton (r : ServiceRegistry) (key : String)
    (factory : Factory) (w : World) : ServiceRegistry × World :=
  r.add .singleton key factory w

/-- ServiceRegistry.addScoped (lines 88-93). -/
def ServiceRegistry.addScoped (r : ServiceRegistry) (key : String)
    (factory : Factory) (w : World) : ServiceRegistry × World :=
  r.add .scoped key factory w

/-- ServiceRegistry.addTransient (lines 100-105). -/
def ServiceRegistry.addTransient (r : ServiceRegistry) (key : String)
    (factory : Factory) (w : World) : ServiceRegistry × World :=
  r.add .transient key factory w

/-- ServiceProvider: the closure environment captured by the accessors that
`scope()` builds — the descriptor snapshot, the registry's `singletons` Map
reference, and this provider's own `scoped` Map reference. -/
structure ServiceProvider where
  descriptors : DMap
  singletons : Nat
  scopedMap : Nat

/-- ServiceRegistry.scope (lines 113-136): allocates `const scoped = new
Map()` and builds the provider closing over the descriptors, the scoped Map
and the registry's singletons Map. -/
def ServiceRegistry.scope (r : ServiceRegistry) (w : World) :
    ServiceProvider × World :=
  let a := w.alloc
  ({ descriptors := r.descriptors, singletons := r.singletons,
     scopedMap := a.1 }, a.2)

/-- Storage Map chosen for a non-transient descriptor (line 121):
`const storage = descriptor.type === "scoped" ? scoped : this.singletons`. -/
def sidOf (p : ServiceProvider) (d : Descriptor) : Nat :=
  if d.type = .scoped then p.scopedMap else p.singletons

/-! ### The accessor semantics -/

/-- Work item of the interpreter: either an accessor call for a key, or the
rest of a running factory body. -/
inductive Task where
  | acc (k : String)
  | body (b : FBody)

/-- Fueled interpreter for accessor calls (the closures built in
src/index.ts lines 113-136).

For `Task.acc k`: if the key is not a property of the provider, calling it
raises (keyNotFound models the JavaScript TypeError).  A transient
descriptor invokes its factory on every call (lines 117-119).  Otherwise
the accessor consults the chosen storage Map: on a hit it returns the
stored value without invoking anything (line 126); on a miss it invokes the
factory, and only on successful return stores the created value under the
key and returns it (lines 127-129) — a thrown error propagates unchanged
and nothing is stored.

Invoking a factory appends one event to the invocation log and runs the
body selected by the current invocation count of that factory.

For `Task.body b`: returns evaluate (allocating fresh identities for
objects and promises), throws raise, and a call runs the sibling accessor,
aborting on its error. -/
def interp : Nat → ServiceProvider → Task → World → Except Err Value × World
  | 0, _, _, w => (Except.error Err.outOfFuel, w)
  | fuel + 1, p, t, w =>
    match t with
    | Task.body (FBody.ret (RVal.const v)) => (Except.ok v, w)
    | Task.body (FBody.ret RVal.freshObj) =>
      (Except.ok (Value.obj w.fresh), { w with fresh := w.fresh + 1 })
    | Task.body (FBody.ret RVal.freshPending) =>
      (Except.ok (Value.pending w.fresh), { w with fresh := w.fresh + 1 })
    | Task.body (FBody.throw m) => (Except.error (Err.thrown m), w)
    | Task.body (FBody.call dep rest) =>
      match interp fuel p (Task.acc dep) w with
      | (Except.ok _, w1) => interp fuel p (Task.body rest) w1
      | r => r
    | Task.acc k =>
      match lookupD p.descriptors k with
      | none => (Except.error (Err.keyNotFound k), w)
      | some d =>
        if d.type = .transient then
          interp fuel p (Task.body (d.factory.body (invCount w.invLog d.factory.fid)))
            { w with invLog := w.invLog ++ [(p.scopedMap, k, d.factory.fid)] }
        else
          let sid := sidOf p d
          if mapHas (w.stores sid) k then
            (Except.ok (SMap.getJs (w.stores sid) k), w)
          else
            match interp fuel p (Task.body (d.factory.body (invCount w.invLog d.factory.fid)))
                { w with invLog := w.invLog ++ [(p.scopedMap, k, d.factory.fid)] } with
            | (Except.ok created, w1) =>
              (Except.ok created,
               w1.setStore sid (mapSet (w1.stores sid) k created))
            | r => r

/-- One accessor call on a provider. -/
def callAccessor (fuel : Nat) (p : ServiceProvider) (k : String) (w : World) :
    Except Err Value × World :=
  interp fuel p (Task.acc k) w


/-- The initial world: empty heap, nothing allocated, empty log. -/
def w0 : World :=
  { stores := fun _ => [], nextStore := 0, fresh := 0, invLog := [] }

deriving instance DecidableEq for Except

/-! ### Association-map lemmas -/

theorem mapGet?_mapSet_self {α : Type} (m : List (String × α)) (k : String) (v : α) :
    mapGet? (mapSet m k v) k = some v := by
  induction m with
  | nil => simp [mapSet, mapGet?]
  | cons e es ih =>
    by_cases h : e.1 = k <;> simp [mapSet, mapGet?, h, ih]

theorem mapGet?_mapSet_ne {α : Type} (m : List (String × α)) (k q : String) (v : α)
    (h : q ≠ k) : mapGet? (mapSet m k v) q = mapGet? m q := by
  have hkq : ¬ (k = q) := fun hh => h hh.symm
  induction m with
  | nil => simp [mapSet, mapGet?, hkq]
  | cons e es ih =>
    by_cases he : e.1 = k
    · have heq : ¬ (e.1 = q) := by rw [he]; exact hkq
      simp [mapSet, mapGet?, he, hkq, heq]
    · by_cases heq : e.1 = q
      · simp [mapSet, mapGet?, he, heq, hkq, h]
      · simp [mapSet, mapGet?, he, heq, ih]

theorem mapHas_eq_isSome {α : Type} (m : List (String × α)) (k : String) :
    mapHas m k = (mapGet? m k).isSome := by
  induction m with
  | nil => simp [mapHas, mapGet?]
  | cons e es ih => by_cases h : e.1 = k <;> simp [mapHas, mapGet?, h, ih]

theorem mapGet?_of_mapHas {α : Type} (m : List (String × α)) (k : String)
    (h : mapHas m k = true) : ∃ v, mapGet? m k = some v := by
  rw [mapHas_eq_isSome] at h
  exact Option.isSome_iff_exists.mp h

theorem getJs_eq (m : SMap) (k : String) (v : Value) (h : mapGet? m k = some v) :
    SMap.getJs m k = v := by
  simp [SMap.getJs, h]

theorem mapGet?_mem {α : Type} (m : List (String × α)) (k : String) (v : α)
    (h : mapGet? m k = some v) : (k, v) ∈ m := by
  induction m with
  | nil => simp [mapGet?] at h
  | cons e es ih =>
    obtain ⟨a, b⟩ := e
    by_cases he : a = k
    · simp [mapGet?, he] at h
      subst he
      subst h
      exact List.mem_cons_self _ _
    · simp [mapGet?, he] at h
      exact List.mem_cons_of_mem _ (ih h)

theorem mapHas_of_mem {α : Type} (m : List (String × α)) (e : String × α)
    (h : e ∈ m) : mapHas m e.1 = true := by
  induction m with
  | nil => simp at h
  | cons f fs ih =>
    rcases List.mem_cons.mp h with rfl | h2
    · simp [mapHas]
    · by_cases hf : f.1 = e.1 <;> simp [mapHas, hf, ih h2]

theorem mapSet_absent {α : Type} (m : List (String × α)) (k : String) (v : α)
    (h : mapHas m k = false) : mapSet m k v = m ++ [(k, v)] := by
  induction m with
  | nil => simp [mapSet]
  | cons e es ih =>
    simp [mapHas, Bool.or_eq_false_iff] at h
    simp [mapSet, h.1, ih h.2]

theorem mapIdx_lt_length_iff {α : Type} (m : List (String × α)) (q : String) :
    mapIdx m q < m.length ↔ mapHas m q = true := by
  induction m with
  | nil => simp [mapIdx, mapHas]
  | cons e es ih =>
    by_cases h : e.1 = q
    · simp [mapIdx, mapHas, h, Nat.succ_pos]
    · simp [mapIdx, mapHas, h, Nat.succ_lt_succ_iff, ih]

theorem mapIdx_append_left {α : Type} (m m2 : List (String × α)) (q : String)
    (h : mapHas m q = true) : mapIdx (m ++ m2) q = mapIdx m q := by
  induction m with
  | nil => simp [mapHas] at h
  | cons e es ih =>
    by_cases he : e.1 = q
    · simp [mapIdx, he]
    · simp [mapHas, he] at h
      simp [mapIdx, he, ih h]

theorem mapIdx_append_absent {α : Type} (m m2 : List (String × α)) (q : String)
    (h : mapHas m q = false) : mapIdx (m ++ m2) q = m.length + mapIdx m2 q := by
  induction m with
  | nil => simp [mapIdx]
  | cons e es ih =>
    simp [mapHas, Bool.or_eq_false_iff] at h
    simp [mapIdx, h.1, ih h.2]
    omega

theorem mapIdx_ne_of_idx_ne {α : Type} (m : List (String × α)) (q k : String)
    (h : mapIdx m q ≠ mapIdx m k) : q ≠ k := by
  intro hqk
  exact h (by rw [hqk])

/-! ### World lemmas -/

theorem setStore_stores_self (w : World) (i : Nat) (m : SMap) :
    (w.setStore i m).stores i = m := by
  simp [World.setStore]

theorem setStore_stores_ne (w : World) (i : Nat) (m : SMap) (j : Nat) (h : j ≠ i) :
    (w.setStore i m).stores j = w.stores j := by
  simp [World.setStore, h]


/-! ### Unfold lemmas for the interpreter -/

/-- World after logging one invocation of factory f for key k on provider p. -/
def logEv (p : ServiceProvider) (k : String) (f : Factory) (w : World) : World :=
  { w with invLog := w.invLog ++ [(p.scopedMap, k, f.fid)] }

theorem interp_acc_none (fuel : Nat) (p : ServiceProvider) (k : String) (w : World)
    (h : lookupD p.descriptors k = none) :
    interp (fuel + 1) p (Task.acc k) w = (Except.error (Err.keyNotFound k), w) := by
  simp only [interp, h]

theorem interp_acc_transient (fuel : Nat) (p : ServiceProvider) (k : String) (w : World)
    (d : Descriptor) (h : lookupD p.descriptors k = some d) (ht : d.type = .transient) :
    interp (fuel + 1) p (Task.acc k) w =
      interp fuel p (Task.body (d.factory.body (invCount w.invLog d.factory.fid)))
        (logEv p k d.factory w) := by
  simp only [interp, h, ht, if_true, logEv]

theorem interp_acc_hit (fuel : Nat) (p : ServiceProvider) (k : String) (w : World)
    (d : Descriptor) (h : lookupD p.descriptors k = some d) (ht : d.type ≠ .transient)
    (hh : mapHas (w.stores (sidOf p d)) k = true) :
    interp (fuel + 1) p (Task.acc k) w =
      (Except.ok (SMap.getJs (w.stores (sidOf p d)) k), w) := by
  simp only [interp, h, ht, if_false, hh, if_true]

theorem interp_acc_miss (fuel : Nat) (p : ServiceProvider) (k : String) (w : World)
    (d : Descriptor) (h : lookupD p.descriptors k = some d) (ht : d.type ≠ .transient)
    (hh : mapHas (w.stores (sidOf p d)) k = false) :
    interp (fuel + 1) p (Task.acc k) w =
      match interp fuel p (Task.body (d.factory.body (invCount w.invLog d.factory.fid)))
          (logEv p k d.factory w) with
      | (Except.ok created, w1) =>
        (Except.ok created, w1.setStore (sidOf p d) (mapSet (w1.stores (sidOf p d)) k created))
      | r => r := by
  simp only [interp, h, ht, if_false, hh, Bool.false_eq_true, logEv]

theorem interp_body_const (fuel : Nat) (p : ServiceProvider) (v : Value) (w : World) :
    interp (fuel + 1) p (Task.body (FBody.ret (RVal.const v))) w = (Except.ok v, w) := rfl

theorem interp_body_freshObj (fuel : Nat) (p : ServiceProvider) (w : World) :
    interp (fuel + 1) p (Task.body (FBody.ret RVal.freshObj)) w =
      (Except.ok (Value.obj w.fresh), { w with fresh := w.fresh + 1 }) := rfl

theorem interp_body_freshPending (fuel : Nat) (p : ServiceProvider) (w : World) :
    interp (fuel + 1) p (Task.body (FBody.ret RVal.freshPending)) w =
      (Except.ok (Value.pending w.fresh), { w with fresh := w.fresh + 1 }) := rfl

theorem interp_body_throw (fuel : Nat) (p : ServiceProvider) (m : String) (w : World) :
    interp (fuel + 1) p (Task.body (FBody.throw m)) w =
      (Except.error (Err.thrown m), w) := rfl

theorem interp_body_call (fuel : Nat) (p : ServiceProvider) (dep : String) (rest : FBody)
    (w : World) :
    interp (fuel + 1) p (Task.body (FBody.call dep rest)) w =
      match interp fuel p (Task.acc dep) w with
      | (Except.ok _, w1) => interp fuel p (Task.body rest) w1
      | r => r := by
  simp only [interp]

/-! ### Memoization lemmas -/

/-- After a successful accessor call on a scoped or singleton descriptor,
the chosen storage Map holds the returned value under the key (either it was
already there, or line 128 stored it). -/
theorem stored_after_ok (fuel : Nat) (p : ServiceProvider) (k : String) (w : World)
    (d : Descriptor) (v : Value) (w1 : World)
    (h : lookupD p.descriptors k = some d) (ht : d.type ≠ .transient)
    (hc : interp (fuel + 1) p (Task.acc k) w = (Except.ok v, w1)) :
    mapGet? (w1.stores (sidOf p d)) k = some v := by
  by_cases hh : mapHas (w.stores (sidOf p d)) k
  · rw [interp_acc_hit fuel p k w d h ht hh] at hc
    obtain ⟨v2, hget⟩ := mapGet?_of_mapHas _ _ hh
    rw [getJs_eq _ _ _ hget] at hc
    have h1 : v2 = v := by simpa using congrArg Prod.fst hc
    have h2 : w = w1 := by simpa using congrArg Prod.snd hc
    rw [← h2, hget, h1]
  · rw [interp_acc_miss fuel p k w d h ht (by simpa using hh)] at hc
    rcases hrun : interp fuel p (Task.body (d.factory.body (invCount w.invLog d.factory.fid)))
        (logEv p k d.factory w) with ⟨res, w2⟩
    rw [hrun] at hc
    cases res with
    | ok created =>
      simp only [Prod.mk.injEq, Except.ok.injEq] at hc
      obtain ⟨hv, hw⟩ := hc
      subst hv
      rw [← hw]
      rw [setStore_stores_self]
      exact mapGet?_mapSet_self _ _ _
    | error e =>
      simp at hc

/-- A hit: when the storage already holds the key, the accessor returns the
stored value and changes nothing (line 126). -/
theorem call_after_stored (fuel : Nat) (p : ServiceProvider) (k : String) (w : World)
    (d : Descriptor) (v : Value)
    (h : lookupD p.descriptors k = some d) (ht : d.type ≠ .transient)
    (hv : mapGet? (w.stores (sidOf p d)) k = some v) :
    interp (fuel + 1) p (Task.acc k) w = (Except.ok v, w) := by
  have hh : mapHas (w.stores (sidOf p d)) k = true := by
    rw [mapHas_eq_isSome, hv]
    rfl
  rw [interp_acc_hit fuel p k w d h ht hh, getJs_eq _ _ _ hv]

/-- Memoization: any accessor call after a successful one returns the same
value and leaves the world untouched: no factory invocation, no store
write, no allocation. -/
theorem memo_second_call (fuel fuel2 : Nat) (p : ServiceProvider) (k : String)
    (w : World) (d : Descriptor) (v : Value) (w1 : World)
    (h : lookupD p.descriptors k = some d) (ht : d.type ≠ .transient)
    (hc : interp (fuel + 1) p (Task.acc k) w = (Except.ok v, w1)) :
    interp (fuel2 + 1) p (Task.acc k) w1 = (Except.ok v, w1) :=
  call_after_stored fuel2 p k w1 d v h ht (stored_after_ok fuel p k w d v w1 h ht hc)



/-! ### Well-typedness and the frame theorem -/

/-- Static well-typedness of a descriptor map, mirroring the generics of
add (src lines 60-64): each registered factory declares a provider surface
`deps` containing only keys registered strictly earlier, and its body only
calls keys of that declared surface. -/
def Wf (ds : DMap) : Prop :=
  ∀ e ∈ ds, (∀ n, (e.2.factory.body n).calls ⊆ e.2.factory.deps) ∧
    ∀ dep ∈ e.2.factory.deps, mapIdx ds dep < mapIdx ds e.1

theorem wf_body_bound (ds : DMap) (k : String) (d : Descriptor) (hwf : Wf ds)
    (h : lookupD ds k = some d) (n : Nat) :
    ∀ c ∈ (d.factory.body n).calls, mapIdx ds c < mapIdx ds k := by
  have hmem := mapGet?_mem ds k d h
  obtain ⟨h1, h2⟩ := hwf (k, d) hmem
  intro c hc
  exact h2 c (h1 n hc)

/-- Effect summary of one accessor call for key k on provider p: the log
grows by invocations whose keys are registered no later than k and whose
factory identity is the one registered for that key; no Map other than the
two captured by the provider changes; entries of any Map at keys registered
strictly later than k are untouched; and when k is transient, entries at k
itself are untouched everywhere. -/
def AccEffect (p : ServiceProvider) (k : String) (w w1 : World) : Prop :=
  (∃ L, w1.invLog = w.invLog ++ L ∧
     ∀ e ∈ L, mapIdx p.descriptors (evKey e) ≤ mapIdx p.descriptors k ∧
       ∃ d, lookupD p.descriptors (evKey e) = some d ∧ evFid e = d.factory.fid) ∧
  w1.nextStore = w.nextStore ∧
  (∀ s, s ≠ p.scopedMap → s ≠ p.singletons → w1.stores s = w.stores s) ∧
  (∀ s q, mapIdx p.descriptors k < mapIdx p.descriptors q →
    mapGet? (w1.stores s) q = mapGet? (w.stores s) q) ∧
  (∀ d, lookupD p.descriptors k = some d → d.type = .transient →
    ∀ s, mapGet? (w1.stores s) k = mapGet? (w.stores s) k)

/-- Effect summary of running a factory body whose calls all have index
below i: logged invocations stay below i and no Map entry at a key of index
at least i changes. -/
def BodyEffect (p : ServiceProvider) (i : Nat) (w w1 : World) : Prop :=
  (∃ L, w1.invLog = w.invLog ++ L ∧
     ∀ e ∈ L, mapIdx p.descriptors (evKey e) < i ∧
       ∃ d, lookupD p.descriptors (evKey e) = some d ∧ evFid e = d.factory.fid) ∧
  w1.nextStore = w.nextStore ∧
  (∀ s, s ≠ p.scopedMap → s ≠ p.singletons → w1.stores s = w.stores s) ∧
  (∀ s q, i ≤ mapIdx p.descriptors q → mapGet? (w1.stores s) q = mapGet? (w.stores s) q)

theorem accEffect_refl (p : ServiceProvider) (k : String) (w : World) :
    AccEffect p k w w :=
  ⟨⟨[], by simp, by simp⟩, rfl, fun _ _ _ => rfl, fun _ _ _ => rfl, fun _ _ _ _ => rfl⟩

theorem bodyEffect_refl (p : ServiceProvider) (i : Nat) (w : World) :
    BodyEffect p i w w :=
  ⟨⟨[], by simp, by simp⟩, rfl, fun _ _ _ => rfl, fun _ _ _ => rfl⟩

theorem bodyEffect_fresh (p : ServiceProvider) (i : Nat) (w : World) :
    BodyEffect p i w { w with fresh := w.fresh + 1 } :=
  ⟨⟨[], by simp, by simp⟩, rfl, fun _ _ _ => rfl, fun _ _ _ => rfl⟩

theorem bodyEffect_trans (p : ServiceProvider) (i : Nat) (w w1 w2 : World)
    (h1 : BodyEffect p i w w1) (h2 : BodyEffect p i w1 w2) : BodyEffect p i w w2 := by
  obtain ⟨⟨L1, hl1, he1⟩, hn1, hs1, hq1⟩ := h1
  obtain ⟨⟨L2, hl2, he2⟩, hn2, hs2, hq2⟩ := h2
  refine ⟨⟨L1 ++ L2, ?_, ?_⟩, ?_, ?_, ?_⟩
  · rw [hl2, hl1, List.append_assoc]
  · intro e he
    rcases List.mem_append.mp he with h | h
    · exact he1 e h
    · exact he2 e h
  · rw [hn2, hn1]
  · intro s hs hsi
    rw [hs2 s hs hsi, hs1 s hs hsi]
  · intro s q hq
    rw [hq2 s q hq, hq1 s q hq]

theorem accEffect_to_body (p : ServiceProvider) (dep : String) (i : Nat) (w w1 : World)
    (hlt : mapIdx p.descriptors dep < i) (h : AccEffect p dep w w1) :
    BodyEffect p i w w1 := by
  obtain ⟨⟨L, hl, he⟩, hn, hs, hq, _⟩ := h
  refine ⟨⟨L, hl, ?_⟩, hn, hs, ?_⟩
  · intro e hemem
    obtain ⟨h1, h2⟩ := he e hemem
    exact ⟨lt_of_le_of_lt h1 hlt, h2⟩
  · intro s q hiq
    exact hq s q (lt_of_lt_of_le hlt hiq)

theorem sidOf_cases (p : ServiceProvider) (d : Descriptor) :
    sidOf p d = p.scopedMap ∨ sidOf p d = p.singletons := by
  unfold sidOf
  split
  · exact Or.inl rfl
  · exact Or.inr rfl

/-- The frame theorem. Under well-typed registrations an accessor call for
key k only invokes factories of keys registered no later than k (so the
factory of k itself runs at most once in the call, since the body of k can
only reach strictly earlier keys), and a running body never touches a
storage entry of a key at or above its bound. -/
theorem interp_frame (fuel : Nat) :
    (∀ p k w res w1, Wf p.descriptors →
       interp fuel p (Task.acc k) w = (res, w1) → AccEffect p k w w1) ∧
    (∀ p b i w res w1, Wf p.descriptors →
       (∀ c ∈ FBody.calls b, mapIdx p.descriptors c < i) →
       interp fuel p (Task.body b) w = (res, w1) → BodyEffect p i w w1) := by
  induction fuel with
  | zero =>
    constructor
    · intro p k w res w1 _ hc
      simp only [interp, Prod.mk.injEq] at hc
      rw [← hc.2]
      exact accEffect_refl p k w
    · intro p b i w res w1 _ _ hc
      simp only [interp, Prod.mk.injEq] at hc
      rw [← hc.2]
      exact bodyEffect_refl p i w
  | succ fuel ih =>
    constructor
    · -- accessor call
      intro p k w res w1 hwf hc
      cases hlook : lookupD p.descriptors k with
      | none =>
        rw [interp_acc_none fuel p k w hlook, Prod.mk.injEq] at hc
        rw [← hc.2]
        exact accEffect_refl p k w
      | some d =>
        by_cases htr : d.type = .transient
        · -- transient: invoke on every call
          rw [interp_acc_transient fuel p k w d hlook htr] at hc
          have hbound := wf_body_bound p.descriptors k d hwf hlook
            (invCount w.invLog d.factory.fid)
          have hbe := ih.2 p _ (mapIdx p.descriptors k) (logEv p k d.factory w) res w1
            hwf hbound hc
          obtain ⟨⟨L, hl, he⟩, hn, hs, hq⟩ := hbe
          refine ⟨⟨(p.scopedMap, k, d.factory.fid) :: L, ?_, ?_⟩, hn, hs, ?_, ?_⟩
          · rw [hl]
            simp [logEv]
          · intro e hemem
            rcases List.mem_cons.mp hemem with rfl | hmem
            · exact ⟨le_refl _, d, hlook, rfl⟩
            · obtain ⟨h1, h2⟩ := he e hmem
              exact ⟨le_of_lt h1, h2⟩
          · intro s q hlt
            exact hq s q (le_of_lt hlt)
          · intro d2 hd2 _ s
            exact hq s k (le_refl _)
        · -- scoped or singleton
          by_cases hh : mapHas (w.stores (sidOf p d)) k
          · rw [interp_acc_hit fuel p k w d hlook htr hh, Prod.mk.injEq] at hc
            rw [← hc.2]
            exact accEffect_refl p k w
          · rw [interp_acc_miss fuel p k w d hlook htr (by simpa using hh)] at hc
            have hbound := wf_body_bound p.descriptors k d hwf hlook
              (invCount w.invLog d.factory.fid)
            rcases hrun : interp fuel p
                (Task.body (d.factory.body (invCount w.invLog d.factory.fid)))
                (logEv p k d.factory w) with ⟨resb, w2⟩
            rw [hrun] at hc
            have hbe := ih.2 p _ (mapIdx p.descriptors k) (logEv p k d.factory w) resb w2
              hwf hbound hrun
            obtain ⟨⟨L, hl, he⟩, hn, hs, hq⟩ := hbe
            have hev : ∀ e ∈ (p.scopedMap, k, d.factory.fid) :: L,
                mapIdx p.descriptors (evKey e) ≤ mapIdx p.descriptors k ∧
                ∃ dd, lookupD p.descriptors (evKey e) = some dd ∧ evFid e = dd.factory.fid := by
              intro e hemem
              rcases List.mem_cons.mp hemem with rfl | hmem
              · exact ⟨le_refl _, d, hlook, rfl⟩
              · obtain ⟨h1, h2⟩ := he e hmem
                exact ⟨le_of_lt h1, h2⟩
            have hlog : w2.invLog = w.invLog ++ ((p.scopedMap, k, d.factory.fid) :: L) := by
              rw [hl]
              simp [logEv]
            cases resb with
            | error e =>
              simp only [Prod.mk.injEq] at hc
              rw [← hc.2]
              refine ⟨⟨_, hlog, hev⟩, hn, hs, ?_, ?_⟩
              · intro s q hlt
                exact hq s q (le_of_lt hlt)
              · intro d2 hd2
                rw [hd2] at hlook
                cases hlook
                intro hcontra
                exact absurd hcontra htr
            | ok created =>
              simp only [Prod.mk.injEq] at hc
              rw [← hc.2]
              refine ⟨⟨_, by simpa [World.setStore] using hlog, hev⟩, hn, ?_, ?_, ?_⟩
              · intro s hs1 hs2
                have hneq : s ≠ sidOf p d := by
                  rcases sidOf_cases p d with hcase | hcase <;> rw [hcase] <;> assumption
                rw [setStore_stores_ne _ _ _ _ hneq]
                exact hs s hs1 hs2
              · intro s q hlt
                have hqk : q ≠ k := mapIdx_ne_of_idx_ne _ _ _ (Nat.ne_of_gt hlt)
                by_cases hcase : s = sidOf p d
                · rw [hcase, setStore_stores_self, mapGet?_mapSet_ne _ _ _ _ hqk]
                  exact hq (sidOf p d) q (le_of_lt hlt)
                · rw [setStore_stores_ne _ _ _ _ hcase]
                  exact hq s q (le_of_lt hlt)
              · intro d2 hd2
                rw [hd2] at hlook
                cases hlook
                intro hcontra
                exact absurd hcontra htr
    · -- factory body
      intro p b i w res w1 hwf hbound hc
      cases b with
      | ret r =>
        cases r with
        | const v =>
          rw [interp_body_const, Prod.mk.injEq] at hc
          rw [← hc.2]
          exact bodyEffect_refl p i w
        | freshObj =>
          rw [interp_body_freshObj, Prod.mk.injEq] at hc
          rw [← hc.2]
          exact bodyEffect_fresh p i w
        | freshPending =>
          rw [interp_body_freshPending, Prod.mk.injEq] at hc
          rw [← hc.2]
          exact bodyEffect_fresh p i w
      | throw m =>
        rw [interp_body_throw, Prod.mk.injEq] at hc
        rw [← hc.2]
        exact bodyEffect_refl p i w
      | call dep rest =>
        rw [interp_body_call] at hc
        have hdep : mapIdx p.descriptors dep < i := hbound dep (by simp [FBody.calls])
        have hrest : ∀ c ∈ FBody.calls rest, mapIdx p.descriptors c < i := by
          intro c hcm
          exact hbound c (by simp [FBody.calls, hcm])
        rcases hacc : interp fuel p (Task.acc dep) w with ⟨resa, wa⟩
        rw [hacc] at hc
        have hbe1 : BodyEffect p i w wa :=
          accEffect_to_body p dep i w wa hdep (ih.1 p dep w resa wa hwf hacc)
        cases resa with
        | ok va =>
          exact bodyEffect_trans p i w wa w1 hbe1 (ih.2 p rest i wa res w1 hwf hrest hc)
        | error e =>
          simp only [Prod.mk.injEq] at hc
          rw [← hc.2]
          exact hbe1


/-! ### The static discipline of the builder chain -/

/-- Modelled from the static signature of add (src lines 60-64): the
TypeScript generics require the new key to be absent from the registry
(the Exclude of TKey and keyof T) and type the factory parameter as
ServiceProvider of T, whose accessor surface holds exactly the keys
registered so far.  A call violating either constraint does not compile;
the model returns none for such a call. -/
def ServiceRegistry.addTyped (r : ServiceRegistry) (type : DescriptorType)
    (key : String) (factory : Factory) (w : World) :
    Option (ServiceRegistry × World) :=
  if mapHas r.descriptors key then none
  else if factory.deps.all (fun dep => mapHas r.descriptors dep) then
    some (r.add type key factory w)
  else none

theorem wf_nil : Wf [] := by
  intro e he
  simp at he

theorem addTyped_rejects_unregistered (r : ServiceRegistry) (type : DescriptorType)
    (key : String) (factory : Factory) (w : World)
    (hdep : ∃ dep ∈ factory.deps, mapHas r.descriptors dep = false) :
    r.addTyped type key factory w = none := by
  obtain ⟨dep, hmem, hfalse⟩ := hdep
  unfold ServiceRegistry.addTyped
  by_cases hk : mapHas r.descriptors key
  · simp [hk]
  · have hall : factory.deps.all (fun dep => mapHas r.descriptors dep) = false := by
      rw [List.all_eq_false]
      exact ⟨dep, hmem, by simp [hfalse]⟩
    simp [hk, hall]

theorem addTyped_preserves_wf (r : ServiceRegistry) (type : DescriptorType)
    (key : String) (factory : Factory) (w : World) (r2 : ServiceRegistry) (w2 : World)
    (hwf : Wf r.descriptors)
    (hbody : ∀ n, (factory.body n).calls ⊆ factory.deps)
    (h : r.addTyped type key factory w = some (r2, w2)) : Wf r2.descriptors := by
  unfold ServiceRegistry.addTyped at h
  by_cases hk : mapHas r.descriptors key
  · simp [hk] at h
  · by_cases hall : factory.deps.all (fun dep => mapHas r.descriptors dep)
    · simp only [hk, if_false, hall, if_true, Option.some.injEq, Bool.false_eq_true] at h
      have hdesc : r2.descriptors =
          r.descriptors ++ [(key, { type := type, factory := factory })] := by
        have := congrArg (fun x => x.1.descriptors) h
        simp [ServiceRegistry.add] at this
        rw [← this, mapSet_absent _ _ _ (by simpa using hk)]
      rw [hdesc]
      intro e he2
      rcases List.mem_append.mp he2 with hmem | hmem
      · obtain ⟨h1, h2⟩ := hwf e hmem
        refine ⟨h1, ?_⟩
        intro dep hdep
        have he1has : mapHas r.descriptors e.1 = true := mapHas_of_mem _ _ hmem
        have he1lt : mapIdx r.descriptors e.1 < r.descriptors.length :=
          (mapIdx_lt_length_iff _ _).mpr he1has
        have hdeplt := h2 dep hdep
        have hdephas : mapHas r.descriptors dep = true :=
          (mapIdx_lt_length_iff _ _).mp (lt_trans hdeplt he1lt)
        rw [mapIdx_append_left _ _ _ he1has, mapIdx_append_left _ _ _ hdephas]
        exact hdeplt
      · have he : e = (key, { type := type, factory := factory }) := by simpa using hmem
        subst he
        refine ⟨hbody, ?_⟩
        intro dep hdep
        have hdephas : mapHas r.descriptors dep = true := by
          rw [List.all_eq_true] at hall
          simpa using hall dep hdep
        rw [mapIdx_append_left _ _ _ hdephas]
        have h1 : mapIdx r.descriptors dep < r.descriptors.length :=
          (mapIdx_lt_length_iff _ _).mpr hdephas
        have h2 : mapIdx (r.descriptors ++ [(key, { type := type, factory := factory })])
            key = r.descriptors.length := by
          rw [mapIdx_append_absent _ _ _ (by simpa using hk)]
          simp [mapIdx]
        rw [h2]
        exact h1
    · simp [hk, hall] at h

/-- Dependency relation generated by the declared provider surfaces: a key
depends on each key of its factory surface, and transitively on their
dependencies. -/
inductive DependsOn (ds : DMap) : String → String → Prop where
  | direct (a b : String) (d : Descriptor) (h : lookupD ds a = some d)
      (hb : b ∈ d.factory.deps) : DependsOn ds a b
  | step (a b c : String) (d : Descriptor) (h : lookupD ds a = some d)
      (hc : c ∈ d.factory.deps) (hrest : DependsOn ds c b) : DependsOn ds a b

theorem dependsOn_idx_lt (ds : DMap) (a b : String) (hwf : Wf ds)
    (h : DependsOn ds a b) : mapIdx ds b < mapIdx ds a := by
  induction h with
  | direct a b d hl hb =>
    exact (hwf (a, d) (mapGet?_mem _ _ _ hl)).2 b hb
  | step a b c d hl hc hrest ih =>
    exact lt_trans ih ((hwf (a, d) (mapGet?_mem _ _ _ hl)).2 c hc)

theorem wf_no_self_dep (ds : DMap) (hwf : Wf ds) (k : String) :
    ¬ DependsOn ds k k :=
  fun h => lt_irrefl _ (dependsOn_idx_lt ds k k hwf h)


/-! ### Shared concrete factories for instantiations -/

/-- Example factory with no dependencies allocating a fresh object on every
invocation. -/
def freshFactory (fid : Nat) : Factory :=
  { fid := fid, deps := [], body := fun _ => .ret .freshObj }

/-- Example async factory returning a fresh pending promise. -/
def pendingFactory (fid : Nat) : Factory :=
  { fid := fid, deps := [], body := fun _ => .ret .freshPending }

/-- Example factory returning a constant value. -/
def constFactory (fid : Nat) (v : Value) : Factory :=
  { fid := fid, deps := [], body := fun _ => .ret (.const v) }

/-- Example flaky factory: throws on its first invocation, then returns
fresh objects (a callback whose closure state changes). -/
def flakyFactory (fid : Nat) : Factory :=
  { fid := fid, deps := [], body := fun n => if n = 0 then .throw "boom" else .ret .freshObj }

theorem wf_of_depfree (ds : DMap)
    (h : ∀ e ∈ ds, e.2.factory.deps = [] ∧ ∀ n, (e.2.factory.body n).calls = []) :
    Wf ds := by
  intro e he
  obtain ⟨h1, h2⟩ := h e he
  constructor
  · intro n c hc
    rw [h2 n] at hc
    simp at hc
  · intro dep hdep
    rw [h1] at hdep
    simp at hdep

/-! ### Claim C7 -/

/-- C7: every add call returns a new Registry that contains the new key
with the supplied descriptor plus all previously registered keys
unchanged; the receiving registry value itself is untouched, the world is
changed only by the allocation of the fresh singletons Map of the new
instance, and a Provider created from the old registry afterwards still
exposes exactly the keys the old registry had. -/
theorem c7_add_copy_on_write (r : ServiceRegistry) (type : DescriptorType)
    (key : String) (factory : Factory) (w : World) :
    lookupD ((r.add type key factory w).1).descriptors key =
      some { type := type, factory := factory } ∧
    (∀ q, q ≠ key →
      lookupD ((r.add type key factory w).1).descriptors q = lookupD r.descriptors q) ∧
    (∀ q, (lookupD ((r.add type key factory w).1).descriptors q).isSome ↔
      (q = key ∨ (lookupD r.descriptors q).isSome)) ∧
    ((r.add type key factory w).2).invLog = w.invLog ∧
    ((r.add type key factory w).2).fresh = w.fresh ∧
    ((r.add type key factory w).2).nextStore = w.nextStore + 1 ∧
    (∀ s, s ≠ w.nextStore → ((r.add type key factory w).2).stores s = w.stores s) ∧
    (r.scope ((r.add type key factory w).2)).1.descriptors = r.descriptors := by
  refine ⟨?_, ?_, ?_, rfl, rfl, rfl, ?_, rfl⟩
  · exact mapGet?_mapSet_self _ _ _
  · intro q hq
    exact mapGet?_mapSet_ne _ _ _ _ hq
  · intro q
    by_cases hq : q = key
    · subst hq
      simp [ServiceRegistry.add, lookupD, mapGet?_mapSet_self]
    · rw [show lookupD ((r.add type key factory w).1).descriptors q =
          lookupD r.descriptors q from mapGet?_mapSet_ne _ _ _ _ hq]
      simp [hq]
  · intro s hs
    simp [ServiceRegistry.add, World.alloc, hs]

theorem c7_witness :
    lookupD ((ServiceRegistry.create w0).1.add .singleton "b" (freshFactory 0)
      ((ServiceRegistry.create w0).2)).1.descriptors "b" =
      some { type := .singleton, factory := freshFactory 0 } ∧
    lookupD ((ServiceRegistry.create w0).1.add .singleton "b" (freshFactory 0)
      ((ServiceRegistry.create w0).2)).1.descriptors "a" =
      lookupD ((ServiceRegistry.create w0).1).descriptors "a" := by
  obtain ⟨h1, h2, _⟩ := c7_add_copy_on_write (ServiceRegistry.create w0).1 .singleton "b"
    (freshFactory 0) ((ServiceRegistry.create w0).2)
  exact ⟨h1, h2 "a" (by decide)⟩

/-! ### Claim C8 -/

/-- C8: requesting a key that was never registered on the originating
registry through one of its Providers fails loudly: the accessor call
returns the keyNotFound error (the TypeError raised by calling a property
the provider object does not have), never a default value, and the world
is unchanged. -/
theorem c8_unknown_key_fails (r : ServiceRegistry) (k : String) (w w2 : World)
    (fuel : Nat) (h : lookupD r.descriptors k = none) :
    interp (fuel + 1) ((r.scope w).1) (Task.acc k) w2 =
      (Except.error (Err.keyNotFound k), w2) := by
  apply interp_acc_none
  exact h

theorem c8_witness :
    interp 5 (((ServiceRegistry.create w0).1.scope ((ServiceRegistry.create w0).2)).1)
      (Task.acc "missing") w0 = (Except.error (Err.keyNotFound "missing"), w0) :=
  c8_unknown_key_fails (ServiceRegistry.create w0).1 "missing"
    ((ServiceRegistry.create w0).2) w0 4 rfl


/-! ### Claim C10 -/

/-- C10: memoization of scoped and singleton keys is decided by Map.has,
that is by key presence in the storage, not by truthiness of the stored
value: for a factory returning any constant value v — including undefined,
null, false, 0 and the empty string — the first accessor call invokes the
factory exactly once and stores v, and the second call returns the stored
v without invoking the factory again (the world is left untouched). -/
theorem c10_memo_by_presence (p : ServiceProvider) (k : String) (d : Descriptor)
    (v : Value) (w : World) (fuel fuel2 : Nat)
    (h : lookupD p.descriptors k = some d) (ht : d.type ≠ .transient)
    (hbody : ∀ n, d.factory.body n = FBody.ret (RVal.const v))
    (hmiss : mapHas (w.stores (sidOf p d)) k = false) :
    ∃ w1, interp (fuel + 1 + 1) p (Task.acc k) w = (Except.ok v, w1) ∧
      w1.invLog = w.invLog ++ [(p.scopedMap, k, d.factory.fid)] ∧
      mapGet? (w1.stores (sidOf p d)) k = some v ∧
      interp (fuel2 + 1) p (Task.acc k) w1 = (Except.ok v, w1) := by
  have hrun : interp (fuel + 1) p
      (Task.body (d.factory.body (invCount w.invLog d.factory.fid)))
      (logEv p k d.factory w) = (Except.ok v, logEv p k d.factory w) := by
    rw [hbody]
    exact interp_body_const _ _ _ _
  have hcall : interp (fuel + 1 + 1) p (Task.acc k) w =
      (Except.ok v, (logEv p k d.factory w).setStore (sidOf p d)
        (mapSet ((logEv p k d.factory w).stores (sidOf p d)) k v)) := by
    rw [interp_acc_miss (fuel + 1) p k w d h ht hmiss, hrun]
  refine ⟨_, hcall, ?_, ?_, ?_⟩
  · simp [World.setStore, logEv]
  · rw [setStore_stores_self]
    exact mapGet?_mapSet_self _ _ _
  · exact memo_second_call (fuel + 1) fuel2 p k w d v _ h ht hcall

def c10d : Descriptor := { type := .scoped, factory := constFactory 0 Value.undef }

def c10p : ServiceProvider :=
  (((ServiceRegistry.create w0).1.addScoped "s" (constFactory 0 Value.undef)
    ((ServiceRegistry.create w0).2)).1.scope
    ((ServiceRegistry.create w0).1.addScoped "s" (constFactory 0 Value.undef)
      ((ServiceRegistry.create w0).2)).2).1

def c10w : World :=
  (((ServiceRegistry.create w0).1.addScoped "s" (constFactory 0 Value.undef)
    ((ServiceRegistry.create w0).2)).1.scope
    ((ServiceRegistry.create w0).1.addScoped "s" (constFactory 0 Value.undef)
      ((ServiceRegistry.create w0).2)).2).2

theorem c10_witness :
    ∃ w1, interp 3 c10p (Task.acc "s") c10w = (Except.ok Value.undef, w1) ∧
      w1.invLog = c10w.invLog ++ [(c10p.scopedMap, "s", 0)] ∧
      mapGet? (w1.stores (sidOf c10p c10d)) "s" = some Value.undef ∧
      interp 2 c10p (Task.acc "s") w1 = (Except.ok Value.undef, w1) :=
  c10_memo_by_presence c10p "s" c10d Value.undef c10w 1 1 rfl (by decide)
    (fun _ => rfl) rfl

/-! ### Claim C4 -/

/-- C4: an asynchronous scoped or singleton factory returning a pending
promise has exactly that pending value stored and returned, without any
inspection or unwrapping: the first call invokes the factory once, stores
the very pending value it returned, and a second call made before the
pending value resolves returns the identical pending value without a
second invocation (the world, including the log, is unchanged). -/
theorem c4_pending_memoized (p : ServiceProvider) (k : String) (d : Descriptor)
    (w : World) (fuel fuel2 : Nat)
    (h : lookupD p.descriptors k = some d) (ht : d.type ≠ .transient)
    (hbody : ∀ n, d.factory.body n = FBody.ret RVal.freshPending)
    (hmiss : mapHas (w.stores (sidOf p d)) k = false) :
    ∃ w1, interp (fuel + 1 + 1) p (Task.acc k) w =
        (Except.ok (Value.pending w.fresh), w1) ∧
      w1.invLog = w.invLog ++ [(p.scopedMap, k, d.factory.fid)] ∧
      mapGet? (w1.stores (sidOf p d)) k = some (Value.pending w.fresh) ∧
      interp (fuel2 + 1) p (Task.acc k) w1 =
        (Except.ok (Value.pending w.fresh), w1) := by
  have hrun : interp (fuel + 1) p
      (Task.body (d.factory.body (invCount w.invLog d.factory.fid)))
      (logEv p k d.factory w) =
      (Except.ok (Value.pending w.fresh),
        { logEv p k d.factory w with fresh := w.fresh + 1 }) := by
    rw [hbody]
    exact interp_body_freshPending _ _ _
  have hcall : interp (fuel + 1 + 1) p (Task.acc k) w =
      (Except.ok (Value.pending w.fresh),
        ({ logEv p k d.factory w with fresh := w.fresh + 1 } : World).setStore (sidOf p d)
          (mapSet (({ logEv p k d.factory w with fresh := w.fresh + 1 } : World).stores
            (sidOf p d)) k (Value.pending w.fresh))) := by
    rw [interp_acc_miss (fuel + 1) p k w d h ht hmiss, hrun]
  refine ⟨_, hcall, ?_, ?_, ?_⟩
  · simp [World.setStore, logEv]
  · rw [setStore_stores_self]
    exact mapGet?_mapSet_self _ _ _
  · exact memo_second_call (fuel + 1) fuel2 p k w d _ _ h ht hcall

def c4d : Descriptor := { type := .singleton, factory := pendingFactory 0 }

def c4r : ServiceRegistry :=
  ((ServiceRegistry.create w0).1.addSingleton "q" (pendingFactory 0)
    ((ServiceRegistry.create w0).2)).1

def c4p : ServiceProvider :=
  (c4r.scope ((ServiceRegistry.create w0).1.addSingleton "q" (pendingFactory 0)
    ((ServiceRegistry.create w0).2)).2).1

def c4w : World :=
  (c4r.scope ((ServiceRegistry.create w0).1.addSingleton "q" (pendingFactory 0)
    ((ServiceRegistry.create w0).2)).2).2

theorem c4_witness :
    ∃ w1, interp 3 c4p (Task.acc "q") c4w = (Except.ok (Value.pending c4w.fresh), w1) ∧
      w1.invLog = c4w.invLog ++ [(c4p.scopedMap, "q", 0)] ∧
      mapGet? (w1.stores (sidOf c4p c4d)) "q" = some (Value.pending c4w.fresh) ∧
      interp 2 c4p (Task.acc "q") w1 = (Except.ok (Value.pending c4w.fresh), w1) :=
  c4_pending_memoized c4p "q" c4d c4w 1 1 rfl (by decide) (fun _ => rfl) rfl


/-! ### Claim C2 -/

/-- First accessor call for a fresh-object scoped key on a newly created
provider: the fresh scoped Map misses, the factory runs once and allocates
the next fresh object, the result is stored, and every later call on the
same provider returns it unchanged. -/
theorem scoped_first_call (r : ServiceRegistry) (k : String) (d : Descriptor)
    (wx : World) (fuelx : Nat)
    (h : lookupD r.descriptors k = some d) (ht : d.type = .scoped)
    (hbody : ∀ n, d.factory.body n = FBody.ret RVal.freshObj) :
    ∃ wy, interp (fuelx + 1 + 1) (r.scope wx).1 (Task.acc k) (r.scope wx).2 =
        (Except.ok (Value.obj wx.fresh), wy) ∧
      wy.invLog = wx.invLog ++ [((r.scope wx).1.scopedMap, k, d.factory.fid)] ∧
      wy.fresh = wx.fresh + 1 ∧
      wy.nextStore = wx.nextStore + 1 ∧
      ∀ fuely, interp (fuely + 1) (r.scope wx).1 (Task.acc k) wy =
        (Except.ok (Value.obj wx.fresh), wy) := by
  have ht' : d.type ≠ .transient := by
    rw [ht]
    intro hcontra
    cases hcontra
  have hmiss1 : mapHas (((r.scope wx).2).stores (sidOf (r.scope wx).1 d)) k = false := by
    simp [ServiceRegistry.scope, World.alloc, sidOf, ht, mapHas]
  have hrun1 : interp (fuelx + 1) (r.scope wx).1
      (Task.body (d.factory.body (invCount ((r.scope wx).2).invLog d.factory.fid)))
      (logEv (r.scope wx).1 k d.factory (r.scope wx).2) =
      (Except.ok (Value.obj wx.fresh),
        { logEv (r.scope wx).1 k d.factory (r.scope wx).2 with fresh := wx.fresh + 1 }) := by
    rw [hbody]
    exact interp_body_freshObj _ _ _
  have hcall1 := interp_acc_miss (fuelx + 1) (r.scope wx).1 k (r.scope wx).2 d h ht' hmiss1
  rw [hrun1] at hcall1
  refine ⟨_, hcall1, ?_, ?_, ?_, ?_⟩
  · simp [World.setStore, logEv, ServiceRegistry.scope, World.alloc]
  · simp [World.setStore, logEv, ServiceRegistry.scope, World.alloc]
  · simp [World.setStore, logEv, ServiceRegistry.scope, World.alloc]
  · intro fuely
    exact memo_second_call (fuelx + 1) fuely (r.scope wx).1 k (r.scope wx).2 d _ _ h ht' hcall1

/-- C2: a scoped key is memoized per provider: on one provider the factory
runs once, the second call returns the reference-identical instance with
no further invocation and no change to the world; a second provider
created from the very same registry misses its own fresh scoped Map, so
the factory runs again, independently, and yields a distinct instance.
Stated for a factory that allocates a fresh object on each run. -/
theorem c2_scoped_per_provider (r : ServiceRegistry) (k : String) (d : Descriptor)
    (w : World) (fuel fuel2 fuel3 : Nat)
    (h : lookupD r.descriptors k = some d) (ht : d.type = .scoped)
    (hbody : ∀ n, d.factory.body n = FBody.ret RVal.freshObj) :
    ∃ w1 w3,
      interp (fuel + 1 + 1) (r.scope w).1 (Task.acc k) (r.scope w).2 =
        (Except.ok (Value.obj w.fresh), w1) ∧
      w1.invLog = w.invLog ++ [((r.scope w).1.scopedMap, k, d.factory.fid)] ∧
      interp (fuel2 + 1) (r.scope w).1 (Task.acc k) w1 =
        (Except.ok (Value.obj w.fresh), w1) ∧
      interp (fuel3 + 1 + 1) (r.scope w1).1 (Task.acc k) (r.scope w1).2 =
        (Except.ok (Value.obj (w.fresh + 1)), w3) ∧
      w3.invLog = w1.invLog ++ [((r.scope w1).1.scopedMap, k, d.factory.fid)] ∧
      Value.obj w.fresh ≠ Value.obj (w.fresh + 1) ∧
      (r.scope w).1.scopedMap ≠ (r.scope w1).1.scopedMap := by
  obtain ⟨w1, hcall1, hlog1, hfresh1, hnext1, hmemo1⟩ :=
    scoped_first_call r k d w fuel h ht hbody
  obtain ⟨w3, hcall2, hlog2, _, _, _⟩ :=
    scoped_first_call r k d w1 fuel3 h ht hbody
  rw [hfresh1] at hcall2
  refine ⟨w1, w3, hcall1, hlog1, hmemo1 fuel2, hcall2, hlog2, by simp, ?_⟩
  have hsm1 : (r.scope w).1.scopedMap = w.nextStore := rfl
  have hsm2 : (r.scope w1).1.scopedMap = w1.nextStore := rfl
  rw [hsm1, hsm2, hnext1]
  omega


def c2r : ServiceRegistry :=
  ((ServiceRegistry.create w0).1.addScoped "s" (freshFactory 0)
    ((ServiceRegistry.create w0).2)).1

def c2w : World :=
  ((ServiceRegistry.create w0).1.addScoped "s" (freshFactory 0)
    ((ServiceRegistry.create w0).2)).2

theorem c2_witness :
    ∃ w1 w3,
      interp 3 (c2r.scope c2w).1 (Task.acc "s") (c2r.scope c2w).2 =
        (Except.ok (Value.obj c2w.fresh), w1) ∧
      w1.invLog = c2w.invLog ++ [((c2r.scope c2w).1.scopedMap, "s", (freshFactory 0).fid)] ∧
      interp 2 (c2r.scope c2w).1 (Task.acc "s") w1 =
        (Except.ok (Value.obj c2w.fresh), w1) ∧
      interp 3 (c2r.scope w1).1 (Task.acc "s") (c2r.scope w1).2 =
        (Except.ok (Value.obj (c2w.fresh + 1)), w3) ∧
      w3.invLog = w1.invLog ++ [((c2r.scope w1).1.scopedMap, "s", (freshFactory 0).fid)] ∧
      Value.obj c2w.fresh ≠ Value.obj (c2w.fresh + 1) ∧
      (c2r.scope c2w).1.scopedMap ≠ (c2r.scope w1).1.scopedMap :=
  c2_scoped_per_provider c2r "s" { type := .scoped, factory := freshFactory 0 }
    c2w 1 1 1 rfl rfl (fun _ => rfl)

/-! ### Claim C1 -/

theorem alloc_mapHas_false (w : World) (s : Nat) (k : String)
    (h : mapHas (w.stores s) k = false) :
    mapHas (((w.alloc).2).stores s) k = false := by
  unfold World.alloc
  by_cases hs : s = w.nextStore
  · simp [hs, mapHas]
  · simp [hs, h]

theorem filter_key_nil (L : List (Nat × String × Nat)) (k : String)
    (h : ∀ e ∈ L, ¬ (evKey e = k)) :
    L.filter (fun e => evKey e == k) = [] := by
  induction L with
  | nil => rfl
  | cons e es ih =>
    have he := h e (List.mem_cons_self _ _)
    have hb : (evKey e == k) = false := by
      simp [he]
    rw [List.filter_cons, hb]
    exact ih (fun x hx => h x (List.mem_cons_of_mem _ hx))

def c1r1 : ServiceRegistry × World := ServiceRegistry.create w0

def c1r2 : ServiceRegistry × World := (c1r1.1).addSingleton "a" (freshFactory 0) c1r1.2

def c1r3 : ServiceRegistry × World :=
  (c1r2.1).addTransient "b" (constFactory 1 Value.null) c1r2.2

def c1p1 : ServiceProvider × World := (c1r2.1).scope c1r3.2

def c1p2 : ServiceProvider × World := (c1r3.1).scope c1p1.2

def c1res1 : Except Err Value × World := callAccessor 3 c1p1.1 "a" c1p2.2

def c1res2 : Except Err Value × World := callAccessor 3 c1p2.1 "a" c1res1.2

/-- C1 as stated fails on the code: r3 is derived from r2 by one further
addTransient call, so both trace back to a common ancestor registry, yet
the two calls to the singleton accessor return distinct instances (obj 0
and obj 1) and the factory is invoked twice, because every ServiceRegistry
instance carries its own fresh singletons Map (the field initializer on
line 50 runs for the new instance that add returns on line 67); singleton
storage is therefore per registry instance, not process-wide. -/
theorem c1_counterexample :
    c1res1.1 = Except.ok (Value.obj 0) ∧
    c1res2.1 = Except.ok (Value.obj 1) ∧
    Value.obj 0 ≠ Value.obj 1 ∧
    ((c1res2.2).invLog.filter (fun e => evKey e == "a")).length = 2 := by
  refine ⟨by decide, by decide, by decide, by decide⟩

/-- C1 amended: singleton storage is shared per ServiceRegistry instance:
two providers created by two scope calls on the same registry value use
the same singletons Map, so after a first successful resolution on the
first provider the second provider returns the reference-identical stored
instance without running the factory again, and in total exactly one
invocation of the key is logged. -/
theorem c1_singleton_per_registry (r : ServiceRegistry) (k : String) (d : Descriptor)
    (w : World) (fuel fuel2 : Nat) (v : Value) (w3 : World)
    (hwf : Wf r.descriptors)
    (h : lookupD r.descriptors k = some d) (ht : d.type = .singleton)
    (hmiss : mapHas (w.stores r.singletons) k = false)
    (hcall : interp (fuel + 1) (r.scope w).1 (Task.acc k)
      ((r.scope ((r.scope w).2)).2) = (Except.ok v, w3)) :
    interp (fuel2 + 1) (r.scope ((r.scope w).2)).1 (Task.acc k) w3 =
      (Except.ok v, w3) ∧
    ∃ L, w3.invLog = w.invLog ++ L ∧
      (L.filter (fun e => evKey e == k)).length = 1 := by
  have ht' : d.type ≠ .transient := by
    rw [ht]
    intro hcontra
    cases hcontra
  have hsid1 : sidOf (r.scope w).1 d = r.singletons := by
    simp [sidOf, ht, ServiceRegistry.scope]
  have hsid2 : sidOf (r.scope ((r.scope w).2)).1 d = r.singletons := by
    simp [sidOf, ht, ServiceRegistry.scope]
  constructor
  · -- the second provider hits the shared singletons Map
    have hstored := stored_after_ok fuel (r.scope w).1 k _ d v w3 h ht' hcall
    rw [hsid1] at hstored
    apply call_after_stored fuel2 (r.scope ((r.scope w).2)).1 k w3 d v h ht'
    rw [hsid2]
    exact hstored
  · -- exactly one logged invocation of k
    have hmissB : mapHas ((((r.scope ((r.scope w).2)).2)).stores
        (sidOf (r.scope w).1 d)) k = false := by
      rw [hsid1]
      exact alloc_mapHas_false _ _ _ (alloc_mapHas_false _ _ _ hmiss)
    rw [interp_acc_miss fuel (r.scope w).1 k _ d h ht' hmissB] at hcall
    rcases hrun : interp fuel (r.scope w).1
        (Task.body (d.factory.body (invCount (((r.scope ((r.scope w).2)).2)).invLog
          d.factory.fid)))
        (logEv (r.scope w).1 k d.factory ((r.scope ((r.scope w).2)).2)) with ⟨resb, w2⟩
    rw [hrun] at hcall
    have hbe := (interp_frame fuel).2 (r.scope w).1 _ (mapIdx r.descriptors k) _ resb w2
      hwf (wf_body_bound r.descriptors k d hwf h _) hrun
    obtain ⟨⟨Lb, hlb, heb⟩, _, _, _⟩ := hbe
    have hkeys : ∀ e ∈ Lb, ¬ (evKey e = k) := by
      intro e hemem heq
      have := (heb e hemem).1
      rw [heq] at this
      exact lt_irrefl _ this
    have hw3log : w3.invLog = w2.invLog := by
      cases resb with
      | ok created =>
        simp only [Prod.mk.injEq] at hcall
        rw [← hcall.2]
        rfl
      | error e =>
        simp at hcall
    refine ⟨((r.scope w).1.scopedMap, k, d.factory.fid) :: Lb, ?_, ?_⟩
    · rw [hw3log, hlb]
      simp [logEv, ServiceRegistry.scope, World.alloc]
    · rw [List.filter_cons]
      have : (evKey ((r.scope w).1.scopedMap, k, d.factory.fid) == k) = true := by
        simp [evKey]
      rw [this, filter_key_nil Lb k hkeys]
      rfl


def c1ar : ServiceRegistry :=
  ((ServiceRegistry.create w0).1.addSingleton "a" (freshFactory 0)
    ((ServiceRegistry.create w0).2)).1

def c1aw : World :=
  ((ServiceRegistry.create w0).1.addSingleton "a" (freshFactory 0)
    ((ServiceRegistry.create w0).2)).2

def c1aw3 : World :=
  (interp 2 (c1ar.scope c1aw).1 (Task.acc "a")
    ((c1ar.scope ((c1ar.scope c1aw).2)).2)).2

theorem c1ar_wf : Wf c1ar.descriptors := by
  apply wf_of_depfree
  intro e he
  have hds : c1ar.descriptors =
      [("a", { type := .singleton, factory := freshFactory 0 })] := rfl
  rw [hds, List.mem_singleton] at he
  subst he
  exact ⟨rfl, fun _ => rfl⟩

theorem c1_witness :
    interp 2 (c1ar.scope ((c1ar.scope c1aw).2)).1 (Task.acc "a") c1aw3 =
      (Except.ok (Value.obj 0), c1aw3) ∧
    ∃ L, c1aw3.invLog = c1aw.invLog ++ L ∧
      (L.filter (fun e => evKey e == "a")).length = 1 :=
  c1_singleton_per_registry c1ar "a" { type := .singleton, factory := freshFactory 0 }
    c1aw 1 1 (Value.obj 0) c1aw3 c1ar_wf rfl rfl (by decide) rfl

/-! ### Claim C3 -/

/-- Effect of one accessor call on a transient key: the factory is invoked
(one event for the key is logged, and the nested invocations the body makes
are all for other keys), and no storage Map anywhere gains or changes an
entry for the key: nothing is ever stored for a transient key. -/
theorem transient_call_effect (p : ServiceProvider) (k : String) (d : Descriptor)
    (w : World) (fuel : Nat) (res : Except Err Value) (w1 : World)
    (hwf : Wf p.descriptors) (h : lookupD p.descriptors k = some d)
    (ht : d.type = .transient)
    (hc : interp (fuel + 1) p (Task.acc k) w = (res, w1)) :
    (∃ L, w1.invLog = w.invLog ++ ((p.scopedMap, k, d.factory.fid) :: L) ∧
      L.filter (fun e => evKey e == k) = []) ∧
    ∀ s, mapGet? (w1.stores s) k = mapGet? (w.stores s) k := by
  rw [interp_acc_transient fuel p k w d h ht] at hc
  have hbe := (interp_frame fuel).2 p _ (mapIdx p.descriptors k) _ res w1 hwf
    (wf_body_bound p.descriptors k d hwf h _) hc
  obtain ⟨⟨L, hl, he⟩, _, _, hq⟩ := hbe
  constructor
  · refine ⟨L, ?_, ?_⟩
    · rw [hl]
      simp [logEv]
    · apply filter_key_nil
      intro e hemem heq
      have hlt := (he e hemem).1
      rw [heq] at hlt
      exact lt_irrefl _ hlt
  · intro s
    simpa [logEv] using hq s k (le_refl _)

/-- C3: a transient key invokes its factory on every single accessor call
— each of two consecutive calls on the same provider logs its own
invocation of the key — and no result is ever stored: every storage Map's
entry at the key is exactly what it was before each call. -/
theorem c3_transient_every_call (p : ServiceProvider) (k : String) (d : Descriptor)
    (w : World) (fuel fuel2 : Nat) (res1 : Except Err Value) (w1 : World)
    (res2 : Except Err Value) (w2 : World)
    (hwf : Wf p.descriptors) (h : lookupD p.descriptors k = some d)
    (ht : d.type = .transient)
    (hc1 : interp (fuel + 1) p (Task.acc k) w = (res1, w1))
    (hc2 : interp (fuel2 + 1) p (Task.acc k) w1 = (res2, w2)) :
    (∃ L, w1.invLog = w.invLog ++ ((p.scopedMap, k, d.factory.fid) :: L) ∧
      L.filter (fun e => evKey e == k) = []) ∧
    (∃ L2, w2.invLog = w1.invLog ++ ((p.scopedMap, k, d.factory.fid) :: L2) ∧
      L2.filter (fun e => evKey e == k) = []) ∧
    (∀ s, mapGet? (w1.stores s) k = mapGet? (w.stores s) k) ∧
    (∀ s, mapGet? (w2.stores s) k = mapGet? (w1.stores s) k) := by
  obtain ⟨ha1, hb1⟩ := transient_call_effect p k d w fuel res1 w1 hwf h ht hc1
  obtain ⟨ha2, hb2⟩ := transient_call_effect p k d w1 fuel2 res2 w2 hwf h ht hc2
  exact ⟨ha1, ha2, hb1, hb2⟩

def c3r : ServiceRegistry :=
  ((ServiceRegistry.create w0).1.addTransient "t" (freshFactory 0)
    ((ServiceRegistry.create w0).2)).1

def c3p : ServiceProvider :=
  (c3r.scope ((ServiceRegistry.create w0).1.addTransient "t" (freshFactory 0)
    ((ServiceRegistry.create w0).2)).2).1

def c3w : World :=
  (c3r.scope ((ServiceRegistry.create w0).1.addTransient "t" (freshFactory 0)
    ((ServiceRegistry.create w0).2)).2).2

def c3w1 : World := (interp 2 c3p (Task.acc "t") c3w).2

def c3w2 : World := (interp 2 c3p (Task.acc "t") c3w1).2

theorem c3_wf : Wf c3p.descriptors := by
  apply wf_of_depfree
  intro e he
  have hds : c3p.descriptors =
      [("t", { type := .transient, factory := freshFactory 0 })] := rfl
  rw [hds, List.mem_singleton] at he
  subst he
  exact ⟨rfl, fun _ => rfl⟩

theorem c3_witness :
    (∃ L, c3w1.invLog = c3w.invLog ++ ((c3p.scopedMap, "t", (freshFactory 0).fid) :: L) ∧
      L.filter (fun e => evKey e == "t") = []) ∧
    (∃ L2, c3w2.invLog = c3w1.invLog ++ ((c3p.scopedMap, "t", (freshFactory 0).fid) :: L2) ∧
      L2.filter (fun e => evKey e == "t") = []) ∧
    (∀ s, mapGet? (c3w1.stores s) "t" = mapGet? (c3w.stores s) "t") ∧
    (∀ s, mapGet? (c3w2.stores s) "t" = mapGet? (c3w1.stores s) "t") :=
  c3_transient_every_call c3p "t" { type := .transient, factory := freshFactory 0 }
    c3w 1 1 (Except.ok (Value.obj 0)) c3w1 (Except.ok (Value.obj 1)) c3w2
    c3_wf rfl rfl rfl rfl


/-! ### Claim C5 -/

/-- C5: when the factory of a scoped or singleton key throws on a miss,
the accessor returns exactly the error the factory raised (the run of the
factory body itself produced it — nothing is caught or wrapped), the
storage is left unpopulated, so any subsequent call invokes the factory
again (a fresh invocation of the key is logged), and if that retry
succeeds its value is memoized normally: it is stored and every later
call returns it unchanged. -/
theorem c5_throw_retry (p : ServiceProvider) (k : String) (d : Descriptor)
    (w : World) (fuel : Nat) (m : String) (w1 : World)
    (hwf : Wf p.descriptors) (h : lookupD p.descriptors k = some d)
    (ht : d.type ≠ .transient)
    (hmiss : mapHas (w.stores (sidOf p d)) k = false)
    (hc : interp (fuel + 1) p (Task.acc k) w = (Except.error (Err.thrown m), w1)) :
    interp fuel p (Task.body (d.factory.body (invCount w.invLog d.factory.fid)))
        (logEv p k d.factory w) = (Except.error (Err.thrown m), w1) ∧
    mapHas (w1.stores (sidOf p d)) k = false ∧
    (∀ fuel2 res2 w2, interp (fuel2 + 1) p (Task.acc k) w1 = (res2, w2) →
      (∃ L2, w2.invLog = w1.invLog ++ ((p.scopedMap, k, d.factory.fid) :: L2)) ∧
      ∀ v, res2 = Except.ok v →
        mapGet? (w2.stores (sidOf p d)) k = some v ∧
        ∀ fuel3, interp (fuel3 + 1) p (Task.acc k) w2 = (Except.ok v, w2)) := by
  rw [interp_acc_miss fuel p k w d h ht hmiss] at hc
  rcases hrun : interp fuel p (Task.body (d.factory.body (invCount w.invLog d.factory.fid)))
      (logEv p k d.factory w) with ⟨resb, wb⟩
  rw [hrun] at hc
  cases resb with
  | ok created => simp at hc
  | error e =>
    simp only [Prod.mk.injEq, Except.error.injEq] at hc
    obtain ⟨he, hw⟩ := hc
    subst he
    subst hw
    refine ⟨rfl, ?_, ?_⟩
    · -- storage still unpopulated
      have hbe := (interp_frame fuel).2 p _ (mapIdx p.descriptors k) _ _ _ hwf
        (wf_body_bound p.descriptors k d hwf h _) hrun
      obtain ⟨_, _, _, hq⟩ := hbe
      rw [mapHas_eq_isSome]
      have hpres := hq (sidOf p d) k (le_refl _)
      simp only [logEv] at hpres
      rw [hpres, ← mapHas_eq_isSome]
      exact hmiss
    · -- the retry
      intro fuel2 res2 w2 hc2
      have hbe := (interp_frame fuel).2 p _ (mapIdx p.descriptors k) _ _ _ hwf
        (wf_body_bound p.descriptors k d hwf h _) hrun
      obtain ⟨_, _, _, hq⟩ := hbe
      have hmiss1 : mapHas (wb.stores (sidOf p d)) k = false := by
        rw [mapHas_eq_isSome]
        have hpres := hq (sidOf p d) k (le_refl _)
        simp only [logEv] at hpres
        rw [hpres, ← mapHas_eq_isSome]
        exact hmiss
      rw [interp_acc_miss fuel2 p k wb d h ht hmiss1] at hc2
      rcases hrun2 : interp fuel2 p
          (Task.body (d.factory.body (invCount wb.invLog d.factory.fid)))
          (logEv p k d.factory wb) with ⟨resb2, wb2⟩
      rw [hrun2] at hc2
      have hbe2 := (interp_frame fuel2).2 p _ (mapIdx p.descriptors k) _ _ _ hwf
        (wf_body_bound p.descriptors k d hwf h _) hrun2
      obtain ⟨⟨L2, hl2, _⟩, _, _, _⟩ := hbe2
      have hlog2 : wb2.invLog = wb.invLog ++ ((p.scopedMap, k, d.factory.fid) :: L2) := by
        rw [hl2]
        simp [logEv]
      cases resb2 with
      | ok created =>
        simp only [Prod.mk.injEq] at hc2
        obtain ⟨hres2, hw2⟩ := hc2
        subst hres2
        constructor
        · refine ⟨L2, ?_⟩
          rw [← hw2]
          simpa [World.setStore] using hlog2
        · intro v heq
          have hcv : created = v := by
            simpa using heq
          subst hcv
          have hstore : mapGet? (w2.stores (sidOf p d)) k = some created := by
            rw [← hw2, setStore_stores_self]
            exact mapGet?_mapSet_self _ _ _
          exact ⟨hstore, fun fuel3 =>
            call_after_stored fuel3 p k w2 d created h ht hstore⟩
      | error e2 =>
        simp only [Prod.mk.injEq] at hc2
        obtain ⟨hres2, hw2⟩ := hc2
        subst hw2
        constructor
        · exact ⟨L2, hlog2⟩
        · intro v heq
          rw [← hres2] at heq
          exact absurd heq (by simp)

def c5r : ServiceRegistry :=
  ((ServiceRegistry.create w0).1.addSingleton "f" (flakyFactory 0)
    ((ServiceRegistry.create w0).2)).1

def c5p : ServiceProvider :=
  (c5r.scope ((ServiceRegistry.create w0).1.addSingleton "f" (flakyFactory 0)
    ((ServiceRegistry.create w0).2)).2).1

def c5w : World :=
  (c5r.scope ((ServiceRegistry.create w0).1.addSingleton "f" (flakyFactory 0)
    ((ServiceRegistry.create w0).2)).2).2

def c5d : Descriptor := { type := .singleton, factory := flakyFactory 0 }

def c5w1 : World := (interp 2 c5p (Task.acc "f") c5w).2

theorem c5_wf : Wf c5p.descriptors := by
  apply wf_of_depfree
  intro e he
  have hds : c5p.descriptors = [("f", c5d)] := rfl
  rw [hds, List.mem_singleton] at he
  subst he
  refine ⟨rfl, ?_⟩
  intro n
  by_cases hn : n = 0 <;> simp [c5d, flakyFactory, FBody.calls, hn]

theorem c5_witness :
    interp 1 c5p (Task.body (c5d.factory.body (invCount c5w.invLog c5d.factory.fid)))
        (logEv c5p "f" c5d.factory c5w) = (Except.error (Err.thrown "boom"), c5w1) ∧
    mapHas (c5w1.stores (sidOf c5p c5d)) "f" = false ∧
    (∀ fuel2 res2 w2, interp (fuel2 + 1) c5p (Task.acc "f") c5w1 = (res2, w2) →
      (∃ L2, w2.invLog = c5w1.invLog ++ ((c5p.scopedMap, "f", c5d.factory.fid) :: L2)) ∧
      ∀ v, res2 = Except.ok v →
        mapGet? (w2.stores (sidOf c5p c5d)) "f" = some v ∧
        ∀ fuel3, interp (fuel3 + 1) c5p (Task.acc "f") w2 = (Except.ok v, w2)) :=
  c5_throw_retry c5p "f" c5d c5w 1 "boom" c5w1 c5_wf rfl (by decide) (by decide) rfl

/-! ### Claim C6 -/

/-- C6: registering the same key twice leaves only the second descriptor in
the resulting registry: lookup returns the second factory, and on any
provider created from the resulting registry no accessor call ever logs an
invocation of the first factory (stated under the assumption that the
first factory's function identity does not also occur among the factories
that remain registered). -/
theorem c6_second_registration_wins (r r2 r3 : ServiceRegistry)
    (t1 t2 : DescriptorType) (k : String) (f1 f2 : Factory)
    (w w2 w3 : World)
    (_h2 : r.add t1 k f1 w = (r2, w2)) (h3 : r2.add t2 k f2 w2 = (r3, w3))
    (hwf : Wf r3.descriptors)
    (hfid : ∀ e ∈ r3.descriptors, e.2.factory.fid ≠ f1.fid) :
    lookupD r3.descriptors k = some { type := t2, factory := f2 } ∧
    ∀ wS fuel q res wq,
      interp fuel ((r3.scope wS).1) (Task.acc q) ((r3.scope wS).2) = (res, wq) →
      ∀ e ∈ wq.invLog, e ∈ (((r3.scope wS).2)).invLog ∨ evFid e ≠ f1.fid := by
  constructor
  · have hdesc : r3.descriptors = mapSet r2.descriptors k { type := t2, factory := f2 } := by
      have := congrArg (fun x => x.1.descriptors) h3
      simpa [ServiceRegistry.add] using this.symm
    rw [hdesc]
    exact mapGet?_mapSet_self _ _ _
  · intro wS fuel q res wq hc e hemem
    have hae := (interp_frame fuel).1 ((r3.scope wS).1) q ((r3.scope wS).2) res wq hwf hc
    obtain ⟨⟨L, hl, he⟩, _⟩ := hae
    rw [hl] at hemem
    rcases List.mem_append.mp hemem with hmem | hmem
    · exact Or.inl hmem
    · right
      obtain ⟨_, dd, hdd, hfidd⟩ := he e hmem
      rw [hfidd]
      exact hfid (evKey e, dd) (mapGet?_mem _ _ _ hdd)

def c6r3pair : ServiceRegistry × World :=
  (((ServiceRegistry.create w0).1.add .singleton "x" (constFactory 5 Value.null)
    ((ServiceRegistry.create w0).2)).1.add .singleton "x" (freshFactory 7)
    ((ServiceRegistry.create w0).1.add .singleton "x" (constFactory 5 Value.null)
      ((ServiceRegistry.create w0).2)).2)

theorem c6r3_wf : Wf (c6r3pair.1).descriptors := by
  apply wf_of_depfree
  intro e he
  have hds : (c6r3pair.1).descriptors =
      [("x", { type := .singleton, factory := freshFactory 7 })] := rfl
  rw [hds, List.mem_singleton] at he
  subst he
  exact ⟨rfl, fun _ => rfl⟩

theorem c6_witness :
    lookupD (c6r3pair.1).descriptors "x" =
      some { type := .singleton, factory := freshFactory 7 } ∧
    ∀ wS fuel q res wq,
      interp fuel (((c6r3pair.1).scope wS).1) (Task.acc q)
        (((c6r3pair.1).scope wS).2) = (res, wq) →
      ∀ e ∈ wq.invLog, e ∈ ((((c6r3pair.1).scope wS).2)).invLog ∨
        evFid e ≠ (constFactory 5 Value.null).fid :=
  c6_second_registration_wins
    (ServiceRegistry.create w0).1
    ((ServiceRegistry.create w0).1.add .singleton "x" (constFactory 5 Value.null)
      ((ServiceRegistry.create w0).2)).1
    c6r3pair.1 .singleton .singleton "x" (constFactory 5 Value.null) (freshFactory 7)
    ((ServiceRegistry.create w0).2)
    ((ServiceRegistry.create w0).1.add .singleton "x" (constFactory 5 Value.null)
      ((ServiceRegistry.create w0).2)).2
    c6r3pair.2 rfl rfl c6r3_wf
    (by
      intro e he
      have hds : (c6r3pair.1).descriptors =
          [("x", { type := .singleton, factory := freshFactory 7 })] := rfl
      rw [hds, List.mem_singleton] at he
      subst he
      decide)


/-! ### Claim C9 -/

/-- C9: the typed builder chain statically rejects, at the add call and
before any provider exists, any registration whose factory surface
mentions a key not yet present; the empty registry is well-typed, every
accepted add preserves well-typedness (dependencies always point strictly
earlier in the chain), and consequently in a well-typed registry no key
depends on itself, directly or transitively. -/
theorem c9_static_rejection_and_acyclicity :
    (∀ (r : ServiceRegistry) (type : DescriptorType) (key : String)
       (factory : Factory) (w : World),
      (∃ dep ∈ factory.deps, mapHas r.descriptors dep = false) →
      r.addTyped type key factory w = none) ∧
    (∀ w, Wf ((ServiceRegistry.create w).1).descriptors) ∧
    (∀ (r : ServiceRegistry) (type : DescriptorType) (key : String)
       (factory : Factory) (w : World) (r2 : ServiceRegistry) (w2 : World),
      Wf r.descriptors → (∀ n, (factory.body n).calls ⊆ factory.deps) →
      r.addTyped type key factory w = some (r2, w2) → Wf r2.descriptors) ∧
    (∀ ds : DMap, Wf ds → ∀ k, ¬ DependsOn ds k k) := by
  refine ⟨?_, ?_, ?_, ?_⟩
  · intro r type key factory w hdep
    exact addTyped_rejects_unregistered r type key factory w hdep
  · intro w
    exact wf_nil
  · intro r type key factory w r2 w2 hwf hbody h
    exact addTyped_preserves_wf r type key factory w r2 w2 hwf hbody h
  · intro ds hwf k
    exact wf_no_self_dep ds hwf k

theorem c9_witness :
    ServiceRegistry.addTyped (ServiceRegistry.create w0).1 .singleton "db"
      { fid := 0, deps := ["config"], body := fun _ => FBody.ret (RVal.const Value.null) }
      ((ServiceRegistry.create w0).2) = none ∧
    ¬ DependsOn [] "a" "a" := by
  obtain ⟨h1, _, _, h4⟩ := c9_static_rejection_and_acyclicity
  constructor
  · exact h1 _ _ _ _ _ ⟨"config", by simp, by decide⟩
  · exact h4 [] wf_nil "a"

end Tioc
